import Mathlib

/-!
Verification of the DLpy autograd operations, dropout layers, samplers and
checkpoint serialization against their natural-language specification.

Arrays are modelled shallowly: an n-dimensional numpy array is a shape
(list of dimension sizes) together with a total valuation of multi-indices.
Numpy float64 values are modelled by the rationals (the claims below only
involve arithmetic that is exact in binary floating point: 0, 1, 1/(1-p)
at p = 0, elementwise products with 0 and 1, and additions of small values).
Randomness (`np.random.rand`, `np.random.permutation`) is modelled by
passing the drawn values in as an explicit argument.
-/

/-- An n-dimensional array: a shape together with the value at each
multi-index.  Values at out-of-range indices are irrelevant junk, as in a
strided memory model. -/
@[ext]
structure NDArray (α : Type) where
  shape : List Nat
  data : List Nat → α

/-- A `Tensor` (DLpy/core/tensor.py is not under src/; the spec gives it
`data`, `requires_grad` and a stable identity `id` used as a map key).
`tid` models Python's `id(x)`. -/
structure Tensor (α : Type) where
  data : NDArray α
  requires_grad : Bool
  tid : Nat

/-- The gradient accumulator `grad_dict`: a mapping from tensor identity to
the accumulated gradient array. -/
def GradDict : Type := Nat → Option (NDArray ℚ)

/-- Python dict assignment `d[k] = v`. -/
def dictSet (d : GradDict) (k : Nat) (v : NDArray ℚ) : GradDict :=
  fun j => if j = k then some v else d j

/-- The empty `grad_dict`. -/
def emptyGradDict : GradDict := fun _ => none

/-- Elementwise numpy addition of two same-shaped arrays (the accumulation
`grad_dict[id(x)] += contribution` that the spec's contract describes). -/
def npAdd (a b : NDArray ℚ) : NDArray ℚ :=
  { shape := a.shape, data := fun idx => a.data idx + b.data idx }

/-- `np.transpose(a)` with no axes argument: full axis reversal. -/
def npTransposeRev {α : Type} (a : NDArray α) : NDArray α :=
  { shape := a.shape.reverse, data := fun idx => a.data idx.reverse }

/-- First position of `a` in a list (numpy needs the inverse of a
permutation to express `np.transpose(a, axes)` pointwise: result index `i`
reads source index `j` with `j[axes[k]] = i[k]`, i.e. `j[m] = i[pos of m in axes]`). -/
def posOf (a : Nat) : List Nat → Nat
  | [] => 0
  | b :: l => if b = a then 0 else posOf a l + 1

/-- `np.transpose(a, axes)` for a valid axes permutation: output axis `k`
is input axis `axes[k]`, so `shape[k] = a.shape[axes[k]]` and the value at
result index `i` is the value of `a` at the index `j` with `j[axes[k]] = i[k]`. -/
def npTransposePerm {α : Type} (a : NDArray α) (axes : List Nat) : NDArray α :=
  { shape := axes.map (fun i => a.shape.getD i 0)
  , data := fun idx =>
      a.data ((List.range a.shape.length).map (fun m => idx.getD (posOf m axes) 0)) }

/-- `np.transpose(a, axes)` including numpy's validation: the axes list
must have one entry per dimension, each in range, with no repeats
(otherwise numpy raises a descriptive `ValueError`/`AxisError`). -/
def npTransposeChecked (a : NDArray ℚ) (axes : List Nat) : Except String (NDArray ℚ) :=
  if axes.length = a.shape.length then
    if axes.all (fun i => i < a.shape.length) then
      if axes.Nodup then Except.ok (npTransposePerm a axes)
      else Except.error "repeated axis in transpose"
    else Except.error "axis is out of bounds for array"
  else Except.error "axes do not match array"

/-- `np.argsort(v)`: the list of indices of `v` arranged so that reading
`v` at them is sorted (stable sort of `0..len-1` by value). -/
def npArgsort (v : List Nat) : List Nat :=
  List.insertionSort (fun i j => v.getD i 0 ≤ v.getD j 0) (List.range v.length)

/-- The `Context` contents that `Transpose.forward` saves
(`ctx.save_for_backward(x)`; `ctx.save_arguments(axes=axes)`). -/
structure Ctx where
  saved_x : Tensor ℚ
  saved_axes : Option (List Nat)

/-- `Transpose.forward` (src/DLpy/ops/matrix.py:11-36).  It saves the input
tensor and the axes in the context, then returns
`Tensor(np.transpose(x.data, axes))`.  The source constructs the output
with `Tensor(...)` and never passes `requires_grad`; the Tensor
constructor is not under src/, so its default flag is the parameter
`default_rg`, and `fresh` models the identity of the newly allocated
tensor.  An invalid axes list makes `np.transpose` raise, modelled as
`Except.error`. -/
def Transpose.forward (default_rg : Bool) (fresh : Nat) (x : Tensor ℚ)
    (axes : Option (List Nat)) : Except String (Ctx × Tensor ℚ) :=
  let ctx : Ctx := { saved_x := x, saved_axes := axes }
  match axes with
  | none => Except.ok (ctx, { data := npTransposeRev x.data, requires_grad := default_rg, tid := fresh })
  | some p =>
      match npTransposeChecked x.data p with
      | Except.ok t => Except.ok (ctx, { data := t, requires_grad := default_rg, tid := fresh })
      | Except.error e => Except.error e

/-- `Transpose.backward` (src/DLpy/ops/matrix.py:38-52).  If the saved
input requires grad it assigns (`grad_dict[id(x)] = ...`) the transposed
gradient: full reversal when axes was `None`, otherwise
`np.transpose(grad_output, np.argsort(axes))`. -/
def Transpose.backward (ctx : Ctx) (grad_output : NDArray ℚ) (grad_dict : GradDict) :
    Except String GradDict :=
  let x := ctx.saved_x
  if x.requires_grad then
    match ctx.saved_axes with
    | none => Except.ok (dictSet grad_dict x.tid (npTransposeRev grad_output))
    | some axes =>
        match npTransposeChecked grad_output (npArgsort axes) with
        | Except.ok t => Except.ok (dictSet grad_dict x.tid t)
        | Except.error e => Except.error e
  else Except.ok grad_dict

/-- The comparison operation family (src/DLpy/ops/matrix.py:89-146). -/
inductive CmpOp
  | gt
  | ge
  | lt
  | le
  | eq
  | ne
deriving DecidableEq

/-- The numpy comparison each subclass passes to `Compare._compare`. -/
def CmpOp.apply : CmpOp → ℚ → ℚ → Bool
  | CmpOp.gt, a, b => decide (a > b)
  | CmpOp.ge, a, b => decide (a ≥ b)
  | CmpOp.lt, a, b => decide (a < b)
  | CmpOp.le, a, b => decide (a ≤ b)
  | CmpOp.eq, a, b => decide (a = b)
  | CmpOp.ne, a, b => decide (a ≠ b)

/-- `Compare._compare` (src/DLpy/ops/matrix.py:58-80): returns
`Tensor(op(x1.data, x2.data))` — again constructed without passing
`requires_grad`, hence carrying the constructor default `default_rg`.
Broadcasting is not needed by the claims; same-shaped operands. -/
def Compare.compareFwd (op : CmpOp) (default_rg : Bool) (fresh : Nat)
    (x1 x2 : Tensor ℚ) : Tensor Bool :=
  { data := { shape := x1.data.shape
            , data := fun idx => op.apply (x1.data.data idx) (x2.data.data idx) }
  , requires_grad := default_rg
  , tid := fresh }

/-- `Compare.backward` (src/DLpy/ops/matrix.py:82-86): the body is empty
("Comparison operations have no gradient") — it returns without touching
`grad_dict` and has no statement that could raise. -/
def Compare.backward {γ : Type} (ctx : γ) (grad_output : NDArray ℚ)
    (grad_dict : GradDict) : Except String GradDict :=
  Except.ok grad_dict

/-- Each subclass (Greater, GreaterEqual, Less, LessEqual, Equal, NotEqual)
inherits `backward` unchanged from `Compare`. -/
def CmpOp.backwardOf (op : CmpOp) {γ : Type} (ctx : γ) (grad_output : NDArray ℚ)
    (grad_dict : GradDict) : Except String GradDict :=
  Compare.backward ctx grad_output grad_dict

/-! ### Properties of `np.argsort` on permutations -/

/-- `npArgsort v` is always an arrangement of the index list `0..len-1`. -/
theorem npArgsort_perm (v : List Nat) :
    List.Perm (npArgsort v) (List.range v.length) :=
  List.perm_insertionSort _ _

theorem npArgsort_length (v : List Nat) : (npArgsort v).length = v.length := by
  have h := (npArgsort_perm v).length_eq
  simpa using h

theorem npArgsort_mem_lt (v : List Nat) {i : Nat} (hi : i ∈ npArgsort v) :
    i < v.length := by
  have h := (npArgsort_perm v).mem_iff.mp hi
  exact List.mem_range.mp h

theorem npArgsort_nodup (v : List Nat) : (npArgsort v).Nodup :=
  (npArgsort_perm v).nodup_iff.mpr (List.nodup_range _)

/-- Reading a list of length n at each index `0..n-1` reproduces the list. -/
theorem map_getD_range (v : List Nat) :
    (List.range v.length).map (fun i => v.getD i 0) = v := by
  apply List.ext_getElem
  · simp
  · intro i h1 h2
    have hi : i < v.length := by simpa using h2
    have hr : i < (List.range v.length).length := by simpa using hi
    rw [List.getElem_map]
    rw [List.getElem_range]
    exact List.getD_eq_getElem v 0 hi

/-- Key fact behind the backward pass: for a permutation `v` of the axes
`0..n-1`, `np.argsort(v)` is the argument ordering that sorts `v` back to
the identity: `v[argsort(v)[k]] = k` for every `k < n`. -/
theorem npArgsort_sorts_back (v : List Nat)
    (hv : List.Perm v (List.range v.length)) :
    ∀ k, k < v.length → v.getD ((npArgsort v).getD k 0) 0 = k := by
  intro k hk
  set key : Nat → Nat := fun i => v.getD i 0 with hkey
  set s : List Nat := npArgsort v with hs
  have hsorted : List.Sorted (fun i j => key i ≤ key j) s := by
    haveI : IsTotal Nat (fun i j => key i ≤ key j) := ⟨fun a b => Nat.le_total _ _⟩
    haveI : IsTrans Nat (fun i j => key i ≤ key j) := ⟨fun a b c hab hbc => le_trans hab hbc⟩
    exact List.sorted_insertionSort _ _
  have hwsorted : List.Sorted (· ≤ ·) (s.map key) := by
    rw [List.Sorted, List.pairwise_map]
    exact hsorted
  have hwperm : List.Perm (s.map key) (List.range v.length) := by
    have h1 : List.Perm (s.map key) ((List.range v.length).map key) :=
      (npArgsort_perm v).map key
    rw [hkey] at h1
    rw [map_getD_range v] at h1
    exact h1.trans hv
  have hrsorted : List.Sorted (· ≤ ·) (List.range v.length) :=
    (List.pairwise_lt_range _).imp Nat.le_of_lt
  have hweq : s.map key = List.range v.length :=
    List.eq_of_perm_of_sorted hwperm hwsorted hrsorted
  have hks : k < s.length := by
    rw [hs, npArgsort_length]; exact hk
  have hkm : k < (s.map key).length := by simpa using hks
  have h1 : (s.map key).getD k 0 = k := by
    rw [hweq]
    rw [List.getD_eq_getElem _ 0 (by simpa using hk)]
    exact List.getElem_range k _
  rw [List.getD_eq_getElem _ 0 hkm, List.getElem_map] at h1
  have h2 : s.getD k 0 = s[k] := List.getD_eq_getElem s 0 hks
  rw [h2]
  exact h1

/-! ### Validity of axis permutations -/

theorem npTransposeChecked_ok (a : NDArray ℚ) (p : List Nat)
    (h1 : p.length = a.shape.length)
    (h2 : ∀ i ∈ p, i < a.shape.length)
    (h3 : p.Nodup) :
    npTransposeChecked a p = Except.ok (npTransposePerm a p) := by
  have hall : (p.all fun i => decide (i < a.shape.length)) = true := by
    rw [List.all_eq_true]
    intro i hi
    exact decide_eq_true (h2 i hi)
  unfold npTransposeChecked
  rw [if_pos h1, if_pos hall, if_pos h3]

/-- A list with one in-range entry per axis and no repeats is a
permutation of the axes `0..n-1`. -/
theorem perm_of_valid_axes {p : List Nat} {n : Nat}
    (h1 : p.length = n) (h2 : ∀ i ∈ p, i < n) (h3 : p.Nodup) :
    List.Perm p (List.range n) := by
  have hsub : p ⊆ List.range n := fun i hi => List.mem_range.mpr (h2 i hi)
  have hsp := List.subperm_of_subset h3 hsub
  exact hsp.perm_of_length_le (by simp [h1])

/-! ### Claim theorems for the Transpose / Compare operations -/

/-- Concrete inputs for evaluating claim C1 on the code: a 1-D tensor that
requires grad, a `grad_dict` that already holds the contribution `[5]` for
its identity, and an incoming gradient `[3]`. -/
def c1x : Tensor ℚ := ⟨⟨[1], fun _ => 0⟩, true, 7⟩

def c1prior : NDArray ℚ := ⟨[1], fun _ => 5⟩

def c1grad : NDArray ℚ := ⟨[1], fun _ => 3⟩

def c1gd : GradDict := dictSet emptyGradDict 7 c1prior

/-- Claim C1 (refuted on the code): `Transpose.backward` does
`grad_dict[id(x)] = np.transpose(grad_output)` — plain assignment.  With a
prior entry `[5]` for `id(x)` and gradient `[3]`, the entry afterwards is
`3`, not the accumulated `5 + 3 = 8` that the spec's contract
("accumulate, not overwrite") requires. -/
theorem transpose_backward_overwrites_prior_entry :
    Except.map (fun d => Option.map (fun a => a.data []) (d 7))
        (Transpose.backward ⟨c1x, none⟩ c1grad c1gd)
      = Except.ok (some (c1grad.data []))
    ∧ c1grad.data [] ≠ (npAdd c1prior c1grad).data [] := by
  constructor
  · rfl
  · norm_num [c1grad, c1prior, npAdd]

/-- Concrete tensors for evaluating claim C2 on the code. -/
def c2xT : Tensor ℚ := ⟨⟨[1, 2], fun _ => 1⟩, true, 1⟩

def c2xF : Tensor ℚ := ⟨⟨[1, 2], fun _ => 1⟩, false, 2⟩

/-- Claim C2 (refuted on the code): `Transpose.forward` builds its output
with `Tensor(np.transpose(x.data))`, never passing `requires_grad`, so the
output carries the Tensor constructor's default flag whatever the input's
flag is.  Whichever that default is, the claimed "iff" fails: with default
`false` an input requiring grad yields an output that does not, and with
default `true` an input not requiring grad yields an output that does. -/
theorem transpose_forward_ignores_requires_grad :
    (Except.map (fun r => r.2.requires_grad) (Transpose.forward false 10 c2xT none)
        = Except.ok false
      ∧ c2xT.requires_grad = true)
    ∧ (Except.map (fun r => r.2.requires_grad) (Transpose.forward true 11 c2xF none)
        = Except.ok true
      ∧ c2xF.requires_grad = false) :=
  ⟨⟨rfl, rfl⟩, rfl, rfl⟩

/-- Claim C3: for a tensor requiring grad, `Transpose.backward` writes the
contribution `np.transpose(grad_output, np.argsort(axes))` when a
permutation was saved — and `np.argsort(axes)` is exactly the argument
ordering that sorts the saved permutation back to the identity — and the
full-reversal transpose of `grad_output` when the saved axes was `None`,
full reversal being self-inverse. -/
theorem transpose_backward_contribution
    (x : Tensor ℚ) (p : List Nat) (g : NDArray ℚ) (gd : GradDict)
    (hx : x.requires_grad = true)
    (hp : List.Perm p (List.range g.shape.length)) :
    Transpose.backward ⟨x, some p⟩ g gd
        = Except.ok (dictSet gd x.tid (npTransposePerm g (npArgsort p)))
    ∧ (∀ k, k < p.length → p.getD ((npArgsort p).getD k 0) 0 = k)
    ∧ Transpose.backward ⟨x, none⟩ g gd
        = Except.ok (dictSet gd x.tid (npTransposeRev g))
    ∧ npTransposeRev (npTransposeRev g) = g := by
  have hlen : p.length = g.shape.length := by simpa using hp.length_eq
  have hchecked : npTransposeChecked g (npArgsort p)
      = Except.ok (npTransposePerm g (npArgsort p)) := by
    apply npTransposeChecked_ok
    · rw [npArgsort_length, hlen]
    · intro i hi
      have h := npArgsort_mem_lt p hi
      omega
    · exact npArgsort_nodup p
  refine ⟨?_, ?_, ?_, ?_⟩
  · simp only [Transpose.backward, hx, if_true, hchecked]
  · have hp2 : List.Perm p (List.range p.length) := by rw [hlen]; exact hp
    exact npArgsort_sorts_back p hp2
  · simp only [Transpose.backward, hx, if_true]
  · apply NDArray.ext
    · simp [npTransposeRev]
    · funext idx
      simp [npTransposeRev]

/-- Concrete inputs for the C3 witness. -/
def c3x : Tensor ℚ := ⟨⟨[2, 3], fun _ => 1⟩, true, 5⟩

def c3g : NDArray ℚ := ⟨[3, 2], fun idx => (idx.getD 0 0 : ℚ)⟩

theorem transpose_backward_contribution_witness :
    c3x.requires_grad = true
    ∧ List.Perm [1, 0] (List.range c3g.shape.length)
    ∧ (Transpose.backward ⟨c3x, some [1, 0]⟩ c3g emptyGradDict
          = Except.ok (dictSet emptyGradDict c3x.tid (npTransposePerm c3g (npArgsort [1, 0])))
        ∧ (∀ k, k < [1, 0].length → [1, 0].getD ((npArgsort [1, 0]).getD k 0) 0 = k)
        ∧ Transpose.backward ⟨c3x, none⟩ c3g emptyGradDict
            = Except.ok (dictSet emptyGradDict c3x.tid (npTransposeRev c3g))
        ∧ npTransposeRev (npTransposeRev c3g) = c3g) :=
  ⟨rfl, by decide,
    transpose_backward_contribution c3x [1, 0] c3g emptyGradDict rfl (by decide)⟩

/-- Claim C4: every comparison operation's `backward` (inherited from
`Compare.backward`, whose body is empty) raises nothing and returns with
`grad_dict` exactly as it was, silently dropping the gradient signal. -/
theorem compare_backward_noop {γ : Type} (op : CmpOp) (ctx : γ)
    (grad_output : NDArray ℚ) (grad_dict : GradDict) :
    op.backwardOf ctx grad_output grad_dict = Except.ok grad_dict :=
  rfl

/-- Claim C7: an axes argument that is not a permutation of the input's
axes makes `Transpose.forward` fail with one of numpy's descriptive
errors, while a `Transpose.backward` call never fails because of an
invalid permutation: whenever the gradient has the rank the forward output
had, the inverse-permutation transpose in backward succeeds. -/
theorem transpose_invalid_axes_fail_forward_only
    (d : Bool) (fresh : Nat) (x : Tensor ℚ) (p : List Nat)
    (hbad : ¬ List.Perm p (List.range x.data.shape.length)) :
    (∃ msg, Transpose.forward d fresh x (some p) = Except.error msg)
    ∧ (∀ (x2 : Tensor ℚ) (q : List Nat) (g : NDArray ℚ) (gd : GradDict),
        (∃ res, Transpose.forward d fresh x2 (some q) = Except.ok res) →
        g.shape.length = q.length →
        ∃ gd2, Transpose.backward ⟨x2, some q⟩ g gd = Except.ok gd2) := by
  constructor
  · have herr : ∃ msg, npTransposeChecked x.data p = Except.error msg := by
      unfold npTransposeChecked
      by_cases h1 : p.length = x.data.shape.length
      · rw [if_pos h1]
        by_cases h2 : (p.all fun i => decide (i < x.data.shape.length)) = true
        · rw [if_pos h2]
          by_cases h3 : p.Nodup
          · exfalso
            apply hbad
            apply perm_of_valid_axes h1 _ h3
            intro i hi
            exact of_decide_eq_true (List.all_eq_true.mp h2 i hi)
          · rw [if_neg h3]
            exact ⟨_, rfl⟩
        · rw [if_neg h2]
          exact ⟨_, rfl⟩
      · rw [if_neg h1]
        exact ⟨_, rfl⟩
    obtain ⟨msg, hmsg⟩ := herr
    refine ⟨msg, ?_⟩
    simp only [Transpose.forward, hmsg]
  · intro x2 q g gd _hfwd hg
    by_cases hrg : x2.requires_grad
    · have hchecked := npTransposeChecked_ok g (npArgsort q)
        (by rw [npArgsort_length, hg])
        (fun i hi => by rw [hg]; exact npArgsort_mem_lt q hi)
        (npArgsort_nodup q)
      refine ⟨dictSet gd x2.tid (npTransposePerm g (npArgsort q)), ?_⟩
      simp only [Transpose.backward, hrg, if_true, hchecked]
    · exact ⟨gd, by simp only [Transpose.backward, hrg, if_false, Bool.false_eq_true]⟩

/-- Concrete inputs for the C7 witness: `[0, 0]` is not a bijection over
the axes of a rank-2 tensor. -/
def c7x : Tensor ℚ := ⟨⟨[2, 2], fun _ => 1⟩, true, 3⟩

theorem transpose_invalid_axes_fail_forward_only_witness :
    ¬ List.Perm [0, 0] (List.range c7x.data.shape.length)
    ∧ ((∃ msg, Transpose.forward false 9 c7x (some [0, 0]) = Except.error msg)
      ∧ (∀ (x2 : Tensor ℚ) (q : List Nat) (g : NDArray ℚ) (gd : GradDict),
          (∃ res, Transpose.forward false 9 x2 (some q) = Except.ok res) →
          g.shape.length = q.length →
          ∃ gd2, Transpose.backward ⟨x2, some q⟩ g gd = Except.ok gd2)) :=
  ⟨by decide, transpose_invalid_axes_fail_forward_only false 9 c7x [0, 0] (by decide)⟩

/-! ### Dropout (src/DLpy/nn/base/dropout.py) -/

/-- `Dropout.forward` (src/DLpy/nn/base/dropout.py:27-51), on the flat
element list of the input.  `r` is the draw of `np.random.rand(*x.shape)`
(each value in `[0, 1)`).  In training mode the mask is `(r > p)` scaled by
`1/(1-p)`, with `p = 1` special-cased to scale `0`; in evaluation mode the
input is returned unchanged.  The `inplace` flag changes only which object
holds the result, not the values, so it is not modelled. -/
def Dropout.forward (p : ℚ) (training : Bool) (x : List ℚ) (r : List ℚ) : List ℚ :=
  if training then
    (x.zip r).map (fun t =>
      t.1 * ((if t.2 > p then (1 : ℚ) else 0) * (if p ≠ 1 then 1 / (1 - p) else 0)))
  else x

/-- `Dropout2d`'s inverted-dropout scale (src/DLpy/nn/base/dropout.py:87). -/
def Dropout2d.scale (p : ℚ) : ℚ := if p ≠ 1 then 1 / (1 - p) else 0

/-- The `Dropout2d` channel mask (src/DLpy/nn/base/dropout.py:81-84):
one draw per `(batch, channel)` pair — `np.random.rand(B, C, 1, 1)`,
given here as `draw` — broadcast over the two spatial axes, so the value
at index `[b, c, h, w]` depends only on `b` and `c`. -/
def Dropout2d.mask (p : ℚ) (draw : Nat → Nat → ℚ) (idx : List Nat) : ℚ :=
  if draw (idx.getD 0 0) (idx.getD 1 0) > p then 1 else 0

/-- `Dropout2d.forward` (src/DLpy/nn/base/dropout.py:76-95): in training
mode it first asserts the input is 4-dimensional, then multiplies by the
broadcast channel mask and the scale; in evaluation mode it returns the
input unchanged whatever its shape. -/
def Dropout2d.forward (p : ℚ) (training : Bool) (draw : Nat → Nat → ℚ)
    (x : NDArray ℚ) : Except String (NDArray ℚ) :=
  if training then
    if x.shape.length = 4 then
      Except.ok { shape := x.shape
                , data := fun idx => x.data idx * Dropout2d.mask p draw idx * Dropout2d.scale p }
    else Except.error ("expected 4D input, got " ++ toString x.shape.length ++ "D input")
  else Except.ok x

/-- Claim C5 (refuted as universally quantified over draws):
`np.random.rand` samples from the half-open interval `[0, 1)`, and the
mask comparison is strict (`rand > p`), so with `p = 0` a draw of exactly
`0.0` zeroes its element even though the claim promises the identity for
every draw. -/
theorem dropout_p0_zero_draw_counterexample :
    Dropout.forward 0 true [1] [0] = [0]
    ∧ Dropout.forward 0 true [1] [0] ≠ [1] := by
  constructor
  · norm_num [Dropout.forward]
  · norm_num [Dropout.forward]

/-- Claim C5 (amended): in evaluation mode the output equals the input for
every `p` and every draw; with `p = 0` in training mode the output equals
the input for every draw whose values are all strictly positive (draws of
exactly `0.0` occur with probability zero); with `p = 1` the training-mode
output is identically zero for every draw — the scale is special-cased to
`0`, no division by zero — and the evaluation-mode output equals the
input. -/
theorem dropout_boundary_behavior (p : ℚ) (x r : List ℚ) :
    Dropout.forward p false x r = x
    ∧ (r.length = x.length → (∀ q ∈ r, 0 < q) → Dropout.forward 0 true x r = x)
    ∧ (r.length = x.length → Dropout.forward 1 true x r = List.replicate x.length 0)
    ∧ Dropout.forward 1 false x r = x := by
  refine ⟨rfl, ?_, ?_, rfl⟩
  · intro hl hr
    show (x.zip r).map _ = x
    induction x generalizing r with
    | nil => simp
    | cons a x ih =>
      cases r with
      | nil => simp at hl
      | cons q r =>
        have hq : (0 : ℚ) < q := hr q (by simp)
        have hqr : ∀ u ∈ r, (0 : ℚ) < u := fun u hu => hr u (by simp [hu])
        have hlr : r.length = x.length := by simpa using hl
        simp only [List.zip_cons_cons, List.map_cons]
        rw [ih r hlr hqr]
        norm_num [hq]
  · intro hl
    show (x.zip r).map _ = List.replicate x.length 0
    induction x generalizing r with
    | nil => simp
    | cons a x ih =>
      cases r with
      | nil => simp at hl
      | cons q r =>
        have hlr : r.length = x.length := by simpa using hl
        simp only [List.zip_cons_cons, List.map_cons, List.length_cons,
          List.replicate_succ]
        rw [ih r hlr]
        norm_num

theorem dropout_boundary_behavior_witness :
    Dropout.forward (1/2) false [(2 : ℚ), 3] [(1 : ℚ), 1] = [(2 : ℚ), 3]
    ∧ Dropout.forward 0 true [(2 : ℚ), 3] [(1 : ℚ), 1] = [(2 : ℚ), 3]
    ∧ Dropout.forward 1 true [(2 : ℚ), 3] [(1 : ℚ), 1] = List.replicate [(2 : ℚ), 3].length 0
    ∧ Dropout.forward 1 false [(2 : ℚ), 3] [(1 : ℚ), 1] = [(2 : ℚ), 3] := by
  obtain ⟨h1, h2, h3, h4⟩ := dropout_boundary_behavior (1/2) [(2 : ℚ), 3] [(1 : ℚ), 1]
  exact ⟨h1, h2 rfl (by decide), h3 rfl, h4⟩

/-- Claim C6: within one training-mode `Dropout2d.forward` call the mask
value at any two spatial positions of a fixed `(batch, channel)` pair is
identical, so the whole feature map of that channel is zeroed or kept as a
unit: every spatial element of the output is `0`, or every spatial element
is the input element times the common scale. -/
theorem dropout2d_channel_atomicity (p : ℚ) (draw : Nat → Nat → ℚ)
    (x y : NDArray ℚ) (hfwd : Dropout2d.forward p true draw x = Except.ok y)
    (b c : Nat) :
    (∀ h1 w1 h2 w2, Dropout2d.mask p draw [b, c, h1, w1] = Dropout2d.mask p draw [b, c, h2, w2])
    ∧ ((∀ hh ww, y.data [b, c, hh, ww] = 0)
      ∨ (∀ hh ww, y.data [b, c, hh, ww] = x.data [b, c, hh, ww] * Dropout2d.scale p)) := by
  constructor
  · intro h1 w1 h2 w2
    rfl
  · by_cases hfour : x.shape.length = 4
    · have hy : y = { shape := x.shape
                    , data := fun idx => x.data idx * Dropout2d.mask p draw idx * Dropout2d.scale p } := by
        have h := hfwd
        unfold Dropout2d.forward at h
        rw [if_pos rfl, if_pos hfour] at h
        exact (Except.ok.injEq _ _).mp h.symm
      by_cases hkeep : draw b c > p
      · right
        intro hh ww
        rw [hy]
        show x.data [b, c, hh, ww] * Dropout2d.mask p draw [b, c, hh, ww] * Dropout2d.scale p
          = x.data [b, c, hh, ww] * Dropout2d.scale p
        unfold Dropout2d.mask
        rw [if_pos (by simpa using hkeep)]
        ring
      · left
        intro hh ww
        rw [hy]
        show x.data [b, c, hh, ww] * Dropout2d.mask p draw [b, c, hh, ww] * Dropout2d.scale p = 0
        unfold Dropout2d.mask
        rw [if_neg (by simpa using hkeep)]
        ring
    · exfalso
      unfold Dropout2d.forward at hfwd
      rw [if_pos rfl, if_neg hfour] at hfwd
      exact Except.noConfusion hfwd

/-- Concrete inputs for the C6 witness. -/
def c6draw : Nat → Nat → ℚ := fun _ _ => 1

def c6x : NDArray ℚ := ⟨[1, 1, 1, 1], fun _ => 2⟩

def c6y : NDArray ℚ :=
  ⟨c6x.shape, fun idx => c6x.data idx * Dropout2d.mask 0 c6draw idx * Dropout2d.scale 0⟩

theorem dropout2d_channel_atomicity_witness :
    Dropout2d.forward 0 true c6draw c6x = Except.ok c6y
    ∧ ((∀ h1 w1 h2 w2, Dropout2d.mask 0 c6draw [0, 0, h1, w1] = Dropout2d.mask 0 c6draw [0, 0, h2, w2])
      ∧ ((∀ hh ww, c6y.data [0, 0, hh, ww] = 0)
        ∨ (∀ hh ww, c6y.data [0, 0, hh, ww] = c6x.data [0, 0, hh, ww] * Dropout2d.scale 0))) :=
  ⟨rfl, dropout2d_channel_atomicity 0 c6draw c6x c6y rfl 0 0⟩

/-- Claim C10: `Dropout2d.forward` in training mode rejects any input
whose dimensionality is not exactly 4 with the assertion message, before
any mask is formed, while evaluation mode accepts any dimensionality and
returns the input unchanged — a precondition the spec never states. -/
theorem dropout2d_requires_4d_in_training (p : ℚ) (draw : Nat → Nat → ℚ)
    (x : NDArray ℚ) (h4 : x.shape.length ≠ 4) :
    Dropout2d.forward p true draw x
        = Except.error ("expected 4D input, got " ++ toString x.shape.length ++ "D input")
    ∧ ∀ (q : ℚ) (d : Nat → Nat → ℚ) (y : NDArray ℚ),
        Dropout2d.forward q false d y = Except.ok y := by
  constructor
  · unfold Dropout2d.forward
    rw [if_pos rfl, if_neg h4]
  · intro q d y
    rfl

/-- Concrete 3-D input for the C10 witness. -/
def c10x : NDArray ℚ := ⟨[2, 3, 4], fun _ => 1⟩

theorem dropout2d_requires_4d_in_training_witness :
    c10x.shape.length ≠ 4
    ∧ (Dropout2d.forward (1/2) true c6draw c10x
          = Except.error ("expected 4D input, got " ++ toString c10x.shape.length ++ "D input")
      ∧ ∀ (q : ℚ) (d : Nat → Nat → ℚ) (y : NDArray ℚ),
          Dropout2d.forward q false d y = Except.ok y) :=
  ⟨by decide, dropout2d_requires_4d_in_training (1/2) c6draw c10x (by decide)⟩

/-! ### Samplers (src/DLpy/data/samplers.py) -/

/-- `Sampler.__init__` (src/DLpy/data/samplers.py:9-10) just stores the
optional data source; a data source is only ever queried for its length,
so it is modelled by its size. -/
structure Sampler where
  data_source : Option Nat

/-- `SequentialSampler.__iter__` (src/DLpy/data/samplers.py:22-25):
`iter(range(len(data_source)))`, or `ValueError` when the data source is
absent. -/
def SequentialSampler.iter (s : Sampler) : Except String (List Nat) :=
  match s.data_source with
  | none => Except.error "data_source cannot be None"
  | some n => Except.ok (List.range n)

/-- `SequentialSampler.__len__` (src/DLpy/data/samplers.py:27-30). -/
def SequentialSampler.len (s : Sampler) : Except String Nat :=
  match s.data_source with
  | none => Except.error "data_source cannot be None"
  | some n => Except.ok n

/-- `RandomSampler.__iter__` (src/DLpy/data/samplers.py:36-40):
`np.random.permutation(len(data_source))`, the freshly drawn permutation
being supplied as `draw`. -/
def RandomSampler.iter (s : Sampler) (draw : Nat → List Nat) : Except String (List Nat) :=
  match s.data_source with
  | none => Except.error "data_source cannot be None"
  | some n => Except.ok (draw n)

/-- `RandomSampler.__len__` (src/DLpy/data/samplers.py:42-45). -/
def RandomSampler.len (s : Sampler) : Except String Nat :=
  match s.data_source with
  | none => Except.error "data_source cannot be None"
  | some n => Except.ok n

/-- Claim C9: constructing a sampler stores the (possibly absent) data
source and cannot fail; with an absent data source every iteration and
length query raises `ValueError`, and with a present one none of them
does. -/
theorem samplers_fail_at_use_not_construction :
    (∀ ds, (Sampler.mk ds).data_source = ds)
    ∧ SequentialSampler.iter (Sampler.mk none) = Except.error "data_source cannot be None"
    ∧ SequentialSampler.len (Sampler.mk none) = Except.error "data_source cannot be None"
    ∧ (∀ draw, RandomSampler.iter (Sampler.mk none) draw = Except.error "data_source cannot be None")
    ∧ RandomSampler.len (Sampler.mk none) = Except.error "data_source cannot be None"
    ∧ (∀ n, SequentialSampler.iter (Sampler.mk (some n)) = Except.ok (List.range n))
    ∧ (∀ n, SequentialSampler.len (Sampler.mk (some n)) = Except.ok n)
    ∧ (∀ n draw, RandomSampler.iter (Sampler.mk (some n)) draw = Except.ok (draw n))
    ∧ (∀ n, RandomSampler.len (Sampler.mk (some n)) = Except.ok n) :=
  ⟨fun _ => rfl, rfl, rfl, fun _ => rfl, rfl, fun _ => rfl, fun _ => rfl,
    fun _ _ => rfl, fun _ => rfl⟩

/-! ### Serialization (src/DLpy/core/serialization.py) -/

/-- A stored parameter/buffer array: shape plus flat contents, so
"bit-identical" restoration is plain equality. -/
structure Arr where
  shape : List Nat
  vals : List ℚ
deriving DecidableEq

/-- Modelled from the spec: the `Module` parameter tree
(DLpy/core/module.py is not under src/).  Spec §3: an ordered mapping of
names to owned trainable parameters and names to owned non-trainable
buffers, with names unique within one module and a stable traversal
order; `named_parameters()` walks the parameters and `_buffers` holds the
buffers. -/
structure DLModule where
  params : List (String × Arr)
  buffers : List (String × Arr)
deriving DecidableEq

/-- Names of an association list. -/
def alKeys (l : List (String × Arr)) : List String := l.map Prod.fst

/-- First value stored under a name, if any. -/
def alFind : List (String × Arr) → String → Option Arr
  | [], _ => none
  | kv :: l, k => if kv.1 = k then some kv.2 else alFind l k

/-- Overwrite the array stored under a name (in place, order preserved). -/
def alSet (l : List (String × Arr)) (k : String) (v : Arr) : List (String × Arr) :=
  l.map (fun kv => if kv.1 = k then (k, v) else kv)

/-- Python dict assignment `d[k] = v` on an association list kept in
insertion order. -/
def alDictSet (l : List (String × Arr)) (k : String) (v : Arr) : List (String × Arr) :=
  if (alFind l k).isSome then alSet l k v else l ++ [(k, v)]

/-- `ModelSaver.get_state_dict` (src/DLpy/core/serialization.py:184-194):
builds a dict holding every parameter's array and then every buffer's
array, keyed by name. -/
def ModelSaver.get_state_dict (m : DLModule) : List (String × Arr) :=
  (m.params ++ m.buffers).foldl (fun d kv => alDictSet d kv.1 kv.2) []

/-- Modelled from the spec: one step of `Module.load_state_dict`
(DLpy/core/module.py is not under src/).  Spec §4.5: "for each entry,
locates the matching leaf by name and overwrites its array in place.
Must raise on shape mismatch."  The behaviour on an unknown key is an
open configuration choice in the spec (§9); it is ignored here, and the
round-trip theorem never reaches that case. -/
def loadEntry (m : DLModule) (k : String) (v : Arr) : Except String DLModule :=
  match alFind m.params k with
  | some a =>
      if v.shape = a.shape then Except.ok { m with params := alSet m.params k v }
      else Except.error "shape mismatch"
  | none =>
      match alFind m.buffers k with
      | some a =>
          if v.shape = a.shape then Except.ok { m with buffers := alSet m.buffers k v }
          else Except.error "shape mismatch"
      | none => Except.ok m

/-- Modelled from the spec: `Module.load_state_dict` iterates the state
dict's entries through `loadEntry`. -/
def DLModule.load_state_dict (m : DLModule) : List (String × Arr) → Except String DLModule
  | [] => Except.ok m
  | kv :: sd =>
      match loadEntry m kv.1 kv.2 with
      | Except.ok m2 => m2.load_state_dict sd
      | Except.error e => Except.error e

/-- The pickled checkpoint record
(src/DLpy/core/serialization.py:144-150). The optimizer is represented by
its state dict, and the free-form additional data by a name-to-value
mapping. -/
structure Checkpoint where
  model_state_dict : List (String × Arr)
  optimizer_state_dict : Option (List (String × ℚ))
  epoch : Option Int
  loss : Option ℚ
  additional_data : List (String × ℚ)

/-- `ModelSaver.save_checkpoint` (src/DLpy/core/serialization.py:124-153):
the value pickled to the path (the file system round-trips the record
unchanged).  `additional_data or {}` turns an absent mapping into the
empty one. -/
def ModelSaver.save_checkpoint (model : DLModule)
    (optimizer : Option (List (String × ℚ))) (epoch : Option Int)
    (loss : Option ℚ) (additional_data : Option (List (String × ℚ))) : Checkpoint :=
  { model_state_dict := ModelSaver.get_state_dict model
  , optimizer_state_dict := optimizer
  , epoch := epoch
  , loss := loss
  , additional_data := match additional_data with
      | none => []
      | some d => d }

/-- The non-model fields `load_checkpoint` hands back to the caller
(src/DLpy/core/serialization.py:178-182). -/
structure LoadedCheckpoint where
  epoch : Option Int
  loss : Option ℚ
  additional_data : List (String × ℚ)
deriving DecidableEq

/-- `ModelSaver.load_checkpoint` (src/DLpy/core/serialization.py:156-182):
unpickles the record from the path, restores the model state dict into
the live model, and returns the epoch, loss and additional data. -/
def ModelSaver.load_checkpoint (ckpt : Checkpoint) (model : DLModule) :
    Except String (DLModule × LoadedCheckpoint) :=
  match model.load_state_dict ckpt.model_state_dict with
  | Except.ok m2 =>
      Except.ok (m2, { epoch := ckpt.epoch, loss := ckpt.loss
                     , additional_data := ckpt.additional_data })
  | Except.error e => Except.error e

/-! ### Lemmas for the checkpoint round trip -/

theorem alKeys_append (l1 l2 : List (String × Arr)) :
    alKeys (l1 ++ l2) = alKeys l1 ++ alKeys l2 :=
  List.map_append _ _ _

theorem alKeys_cons (kv : String × Arr) (l : List (String × Arr)) :
    alKeys (kv :: l) = kv.1 :: alKeys l :=
  rfl

theorem alKeys_nil : alKeys [] = [] :=
  rfl

theorem alFind_of_not_mem :
    ∀ (l : List (String × Arr)) (k : String), k ∉ alKeys l → alFind l k = none := by
  intro l
  induction l with
  | nil => intro k _; rfl
  | cons kv l ih =>
    intro k h
    have h1 : kv.1 ≠ k := by
      intro he
      exact h (by rw [alKeys_cons, he]; exact List.mem_cons_self _ _)
    have h2 : k ∉ alKeys l := by
      intro hm
      exact h (by rw [alKeys_cons]; exact List.mem_cons_of_mem _ hm)
    simp [alFind, h1, ih k h2]

theorem alFind_append_of_not_mem (l : List (String × Arr)) :
    ∀ (d : List (String × Arr)) (k : String), k ∉ alKeys d →
      alFind (d ++ l) k = alFind l k := by
  intro d
  induction d with
  | nil => intro k _; rfl
  | cons kv d ih =>
    intro k h
    have h1 : kv.1 ≠ k := by
      intro he
      exact h (by rw [alKeys_cons, he]; exact List.mem_cons_self _ _)
    have h2 : k ∉ alKeys d := by
      intro hm
      exact h (by rw [alKeys_cons]; exact List.mem_cons_of_mem _ hm)
    simp [alFind, h1, ih k h2]

theorem alSet_of_not_mem :
    ∀ (l : List (String × Arr)) (k : String) (v : Arr), k ∉ alKeys l →
      alSet l k v = l := by
  intro l
  induction l with
  | nil => intro k v _; rfl
  | cons kv l ih =>
    intro k v h
    have h1 : kv.1 ≠ k := by
      intro he
      exact h (by rw [alKeys_cons, he]; exact List.mem_cons_self _ _)
    have h2 : k ∉ alKeys l := by
      intro hm
      exact h (by rw [alKeys_cons]; exact List.mem_cons_of_mem _ hm)
    have ht := ih k v h2
    simp only [alSet, List.map_cons] at ht ⊢
    rw [if_neg h1, ht]

theorem alSet_append (l1 l2 : List (String × Arr)) (k : String) (v : Arr) :
    alSet (l1 ++ l2) k v = alSet l1 k v ++ alSet l2 k v :=
  List.map_append _ _ _

/-- Shortcut equation for `load_state_dict` on a cons cell. -/
theorem load_state_dict_cons (m : DLModule) (kv : String × Arr) (sd : List (String × Arr)) :
    DLModule.load_state_dict m (kv :: sd)
      = match loadEntry m kv.1 kv.2 with
        | Except.ok m2 => DLModule.load_state_dict m2 sd
        | Except.error e => Except.error e :=
  rfl

theorem load_state_dict_append :
    ∀ (l1 l2 : List (String × Arr)) (m : DLModule),
      DLModule.load_state_dict m (l1 ++ l2)
        = match DLModule.load_state_dict m l1 with
          | Except.ok m2 => DLModule.load_state_dict m2 l2
          | Except.error e => Except.error e := by
  intro l1
  induction l1 with
  | nil => intro l2 m; rfl
  | cons kv l1 ih =>
    intro l2 m
    rw [List.cons_append, load_state_dict_cons, load_state_dict_cons]
    cases he : loadEntry m kv.1 kv.2 with
    | ok m2 => exact ih l2 m2
    | error e => rfl

/-- Building a dict from entries with fresh, pairwise-distinct keys is
plain concatenation. -/
theorem foldl_alDictSet :
    ∀ (l d : List (String × Arr)), (alKeys l).Nodup →
      (∀ k ∈ alKeys l, k ∉ alKeys d) →
      l.foldl (fun d2 kv => alDictSet d2 kv.1 kv.2) d = d ++ l := by
  intro l
  induction l with
  | nil => intro d _ _; simp
  | cons kv l ih =>
    intro d hn hd
    rw [alKeys_cons] at hn hd
    obtain ⟨hhead, hn2⟩ := List.nodup_cons.mp hn
    have hk : kv.1 ∉ alKeys d := hd kv.1 (List.mem_cons_self _ _)
    have hstep : alDictSet d kv.1 kv.2 = d ++ [kv] := by
      unfold alDictSet
      rw [alFind_of_not_mem d kv.1 hk]
      rfl
    have hd2 : ∀ k ∈ alKeys l, k ∉ alKeys (d ++ [kv]) := by
      intro k hkl
      rw [alKeys_append]
      intro hmem
      rcases List.mem_append.mp hmem with hm1 | hm2
      · exact hd k (List.mem_cons_of_mem _ hkl) hm1
      · have hkkv : k = kv.1 := by
          rw [alKeys_cons, alKeys_nil] at hm2
          simpa using hm2
        exact hhead (hkkv ▸ hkl)
    rw [List.foldl_cons, hstep, ih (d ++ [kv]) hn2 hd2]
    simp

/-- With unique leaf names, the state dict is exactly the parameter list
followed by the buffer list. -/
theorem get_state_dict_eq (m : DLModule)
    (hn : (alKeys (m.params ++ m.buffers)).Nodup) :
    ModelSaver.get_state_dict m = m.params ++ m.buffers := by
  unfold ModelSaver.get_state_dict
  have h := foldl_alDictSet (m.params ++ m.buffers) [] hn
    (by intro k _ hmem; rw [alKeys_nil] at hmem; exact List.not_mem_nil k hmem)
  simpa using h

/-- `loadEntry` written out on a literal module. -/
theorem loadEntry_eq (ps bs : List (String × Arr)) (k : String) (v : Arr) :
    loadEntry ⟨ps, bs⟩ k v
      = match alFind ps k with
        | some a =>
            if v.shape = a.shape then Except.ok ⟨alSet ps k v, bs⟩
            else Except.error "shape mismatch"
        | none =>
            match alFind bs k with
            | some a =>
                if v.shape = a.shape then Except.ok ⟨ps, alSet bs k v⟩
                else Except.error "shape mismatch"
            | none => Except.ok ⟨ps, bs⟩ :=
  rfl

theorem loadEntry_param_hit (ps bs : List (String × Arr)) (k : String) (v a : Arr)
    (hf : alFind ps k = some a) (hsh : v.shape = a.shape) :
    loadEntry ⟨ps, bs⟩ k v = Except.ok ⟨alSet ps k v, bs⟩ := by
  rw [loadEntry_eq, hf]
  exact if_pos hsh

theorem loadEntry_buffer_hit (ps bs : List (String × Arr)) (k : String) (v a : Arr)
    (hp : alFind ps k = none) (hf : alFind bs k = some a) (hsh : v.shape = a.shape) :
    loadEntry ⟨ps, bs⟩ k v = Except.ok ⟨ps, alSet bs k v⟩ := by
  rw [loadEntry_eq, hp, hf]
  exact if_pos hsh

/-- Loading the saved parameter entries into a module whose parameter list
has the same names (in order) and shapes overwrites exactly those arrays. -/
theorem load_params_phase :
    ∀ (ps ps2 done bs : List (String × Arr)),
      alKeys ps = alKeys ps2 →
      ps.map (fun kv => kv.2.shape) = ps2.map (fun kv => kv.2.shape) →
      (alKeys ps).Nodup →
      (∀ k ∈ alKeys ps, k ∉ alKeys done) →
      DLModule.load_state_dict ⟨done ++ ps2, bs⟩ ps = Except.ok ⟨done ++ ps, bs⟩ := by
  intro ps
  induction ps with
  | nil =>
    intro ps2 done bs hk _ _ _
    have hnil : ps2 = [] := by
      have hlen := congrArg List.length hk
      simp [alKeys] at hlen
      exact List.eq_nil_of_length_eq_zero hlen.symm
    subst hnil
    rfl
  | cons kv ps ih =>
    intro ps2 done bs hk hs hn hd
    obtain ⟨k, v⟩ := kv
    cases ps2 with
    | nil => simp [alKeys] at hk
    | cons kv2 ps2 =>
      obtain ⟨k2, a⟩ := kv2
      rw [alKeys_cons, alKeys_cons] at hk
      injection hk with hk1 hktl
      have hkk2 : k = k2 := hk1
      simp only [List.map_cons] at hs
      injection hs with hs1 hstl
      have hsh : v.shape = a.shape := hs1
      rw [alKeys_cons] at hn hd
      obtain ⟨hhead, hn2⟩ := List.nodup_cons.mp hn
      have hkdone : k ∉ alKeys done := hd k (List.mem_cons_self _ _)
      have hkps2 : k ∉ alKeys ps2 := by
        rw [← hktl]
        exact hhead
      have hfind : alFind (done ++ (k2, a) :: ps2) k = some a := by
        rw [alFind_append_of_not_mem _ done k hkdone]
        rw [show alFind ((k2, a) :: ps2) k
              = if k2 = k then some a else alFind ps2 k from rfl]
        rw [if_pos hkk2.symm]
      have hset : alSet (done ++ (k2, a) :: ps2) k v = done ++ (k, v) :: ps2 := by
        rw [alSet_append, alSet_of_not_mem done k v hkdone]
        rw [show alSet ((k2, a) :: ps2) k v
              = (if k2 = k then (k, v) else (k2, a)) :: alSet ps2 k v from rfl]
        rw [if_pos hkk2.symm, alSet_of_not_mem ps2 k v hkps2]
      have hentry := loadEntry_param_hit (done ++ (k2, a) :: ps2) bs k v a hfind hsh
      rw [hset] at hentry
      rw [load_state_dict_cons]
      rw [show ((k, v) : String × Arr).1 = k from rfl, show ((k, v) : String × Arr).2 = v from rfl]
      rw [hentry]
      have hd2 : ∀ j ∈ alKeys ps, j ∉ alKeys (done ++ [(k, v)]) := by
        intro j hj
        rw [alKeys_append]
        intro hmem
        rcases List.mem_append.mp hmem with hm1 | hm2
        · exact hd j (List.mem_cons_of_mem _ hj) hm1
        · have hjk : j = k := by
            rw [alKeys_cons, alKeys_nil] at hm2
            simpa using hm2
          exact hhead (hjk ▸ hj)
      have hrest := ih ps2 (done ++ [(k, v)]) bs hktl hstl hn2 hd2
      simp only [List.append_assoc, List.singleton_append] at hrest
      exact hrest

/-- Loading the saved buffer entries into a module whose parameters have
already been restored (and whose buffer names/shapes match in order)
overwrites exactly the buffer arrays. -/
theorem load_buffers_phase :
    ∀ (bs bs2 done pfin : List (String × Arr)),
      alKeys bs = alKeys bs2 →
      bs.map (fun kv => kv.2.shape) = bs2.map (fun kv => kv.2.shape) →
      (alKeys bs).Nodup →
      (∀ k ∈ alKeys bs, k ∉ alKeys done) →
      (∀ k ∈ alKeys bs, k ∉ alKeys pfin) →
      DLModule.load_state_dict ⟨pfin, done ++ bs2⟩ bs = Except.ok ⟨pfin, done ++ bs⟩ := by
  intro bs
  induction bs with
  | nil =>
    intro bs2 done pfin hk _ _ _ _
    have hnil : bs2 = [] := by
      have hlen := congrArg List.length hk
      simp [alKeys] at hlen
      exact List.eq_nil_of_length_eq_zero hlen.symm
    subst hnil
    rfl
  | cons kv bs ih =>
    intro bs2 done pfin hk hs hn hd hp
    obtain ⟨k, v⟩ := kv
    cases bs2 with
    | nil => simp [alKeys] at hk
    | cons kv2 bs2 =>
      obtain ⟨k2, a⟩ := kv2
      rw [alKeys_cons, alKeys_cons] at hk
      injection hk with hk1 hktl
      have hkk2 : k = k2 := hk1
      simp only [List.map_cons] at hs
      injection hs with hs1 hstl
      have hsh : v.shape = a.shape := hs1
      rw [alKeys_cons] at hn hd hp
      obtain ⟨hhead, hn2⟩ := List.nodup_cons.mp hn
      have hkdone : k ∉ alKeys done := hd k (List.mem_cons_self _ _)
      have hkpfin : k ∉ alKeys pfin := hp k (List.mem_cons_self _ _)
      have hkbs2 : k ∉ alKeys bs2 := by
        rw [← hktl]
        exact hhead
      have hfind : alFind (done ++ (k2, a) :: bs2) k = some a := by
        rw [alFind_append_of_not_mem _ done k hkdone]
        rw [show alFind ((k2, a) :: bs2) k
              = if k2 = k then some a else alFind bs2 k from rfl]
        rw [if_pos hkk2.symm]
      have hset : alSet (done ++ (k2, a) :: bs2) k v = done ++ (k, v) :: bs2 := by
        rw [alSet_append, alSet_of_not_mem done k v hkdone]
        rw [show alSet ((k2, a) :: bs2) k v
              = (if k2 = k then (k, v) else (k2, a)) :: alSet bs2 k v from rfl]
        rw [if_pos hkk2.symm, alSet_of_not_mem bs2 k v hkbs2]
      have hentry := loadEntry_buffer_hit pfin (done ++ (k2, a) :: bs2) k v a
        (alFind_of_not_mem pfin k hkpfin) hfind hsh
      rw [hset] at hentry
      rw [load_state_dict_cons]
      rw [show ((k, v) : String × Arr).1 = k from rfl, show ((k, v) : String × Arr).2 = v from rfl]
      rw [hentry]
      have hd2 : ∀ j ∈ alKeys bs, j ∉ alKeys (done ++ [(k, v)]) := by
        intro j hj
        rw [alKeys_append]
        intro hmem
        rcases List.mem_append.mp hmem with hm1 | hm2
        · exact hd j (List.mem_cons_of_mem _ hj) hm1
        · have hjk : j = k := by
            rw [alKeys_cons, alKeys_nil] at hm2
            simpa using hm2
          exact hhead (hjk ▸ hj)
      have hp2 : ∀ j ∈ alKeys bs, j ∉ alKeys pfin :=
        fun j hj => hp j (List.mem_cons_of_mem _ hj)
      have hrest := ih bs2 (done ++ [(k, v)]) pfin hktl hstl hn2 hd2 hp2
      simp only [List.append_assoc, List.singleton_append] at hrest
      exact hrest

/-- Claim C8: saving a checkpoint and loading it back on the same path
restores every parameter and buffer to its saved, bit-identical value and
returns the epoch, loss and additional-data mapping originally passed,
whatever the model's arrays hold at load time, for any optimizer
argument.  Hypotheses: the live model at load time has the same leaf names
and array shapes as at save time (training never changes them), and leaf
names are unique across the module, as the spec requires. -/
theorem checkpoint_round_trip (m m2 : DLModule)
    (opt : Option (List (String × ℚ))) (epoch : Option Int) (loss : Option ℚ)
    (ad : List (String × ℚ))
    (hkp : alKeys m.params = alKeys m2.params)
    (hsp : m.params.map (fun kv => kv.2.shape) = m2.params.map (fun kv => kv.2.shape))
    (hkb : alKeys m.buffers = alKeys m2.buffers)
    (hsb : m.buffers.map (fun kv => kv.2.shape) = m2.buffers.map (fun kv => kv.2.shape))
    (hn : (alKeys (m.params ++ m.buffers)).Nodup) :
    ModelSaver.load_checkpoint (ModelSaver.save_checkpoint m opt epoch loss (some ad)) m2
      = Except.ok (m, { epoch := epoch, loss := loss, additional_data := ad }) := by
  have hsd : ModelSaver.get_state_dict m = m.params ++ m.buffers :=
    get_state_dict_eq m hn
  rw [alKeys_append] at hn
  obtain ⟨hnp, hnb, hdisj⟩ := List.nodup_append.mp hn
  obtain ⟨ps, bs⟩ := m
  obtain ⟨ps2, bs2⟩ := m2
  have hload : DLModule.load_state_dict ⟨ps2, bs2⟩ (ps ++ bs)
      = Except.ok ⟨ps, bs⟩ := by
    rw [load_state_dict_append]
    have hph := load_params_phase ps ps2 [] bs2 hkp hsp hnp
      (by intro k _ hmem; rw [alKeys_nil] at hmem; exact List.not_mem_nil k hmem)
    simp only [List.nil_append] at hph
    rw [hph]
    have hbh := load_buffers_phase bs bs2 [] ps hkb hsb hnb
      (by intro k _ hmem; rw [alKeys_nil] at hmem; exact List.not_mem_nil k hmem)
      (by intro k hk hmem; exact hdisj hmem hk)
    simp only [List.nil_append] at hbh
    exact hbh
  unfold ModelSaver.load_checkpoint ModelSaver.save_checkpoint
  rw [show (ModelSaver.get_state_dict ⟨ps, bs⟩ : List (String × Arr))
        = ps ++ bs from hsd]
  rw [hload]

/-- Concrete model for the C8 witness: one weight parameter and one
running-statistics buffer... saved, then reloaded into the same-shaped
module holding different values. -/
def c8m : DLModule := ⟨[("w", ⟨[2], [1, 2]⟩)], [("rm", ⟨[1], [5]⟩)]⟩

def c8m2 : DLModule := ⟨[("w", ⟨[2], [3, 4]⟩)], [("rm", ⟨[1], [9]⟩)]⟩

theorem checkpoint_round_trip_witness :
    alKeys c8m.params = alKeys c8m2.params
    ∧ c8m.params.map (fun kv => kv.2.shape) = c8m2.params.map (fun kv => kv.2.shape)
    ∧ alKeys c8m.buffers = alKeys c8m2.buffers
    ∧ c8m.buffers.map (fun kv => kv.2.shape) = c8m2.buffers.map (fun kv => kv.2.shape)
    ∧ (alKeys (c8m.params ++ c8m.buffers)).Nodup
    ∧ ModelSaver.load_checkpoint
        (ModelSaver.save_checkpoint c8m none (some 3) (some (1/2)) (some [("acc", 9/10)])) c8m2
      = Except.ok (c8m, { epoch := some 3, loss := some (1/2), additional_data := [("acc", 9/10)] }) :=
  ⟨rfl, rfl, rfl, rfl, by decide,
    checkpoint_round_trip c8m c8m2 none (some 3) (some (1/2)) [("acc", 9/10)]
      rfl rfl rfl rfl (by decide)⟩
